import Mathlib

set_option maxRecDepth 100000

/-!
Verification development for the RP2040 "Combo" demo (combo.c): fixed-point
arithmetic macros, the DDS beep envelope state machine, the fixed-point FFT's
bit-reversal phase and peak search, and the two-core ping-pong handshake.
-/

namespace Combo

/-- Reinterpret an integer as a `w`-bit two's-complement signed value:
reduce modulo `2^w`, then map the upper half down.  This models C casts to
`signed int` (`w = 32`) and `signed long long` (`w = 64`). -/
def toSigned (w : Nat) (n : Int) : Int :=
  let r := n % ((2 : Int) ^ w)
  if r < 2 ^ (w - 1) then r else r - 2 ^ w

/-- C cast `(signed long long) x`. -/
def i64 (n : Int) : Int := toSigned 64 n

/-- C cast `(fix15) x` where `fix15` is `signed int`. -/
def i32 (n : Int) : Int := toSigned 32 n

/-- The macro `multfix15(a,b) ((fix15)((((signed long long)(a))*((signed long long)(b)))>>15))`
(combo.c line 47).  The two operands are widened to 64 bits, multiplied (the
64-bit product wraps), arithmetically shifted right by 15 (floor division),
and truncated back to 32 bits. -/
def multfix15 (a b : Int) : Int :=
  i32 (Int.fdiv (i64 (i64 a * i64 b)) 32768)

/-- The macro `int2fix15(a) = (fix15)(a << 15)` (combo.c line 51). -/
def int2fix15 (a : Int) : Int := i32 (a * 32768)

/-- The macro `fix2int15(a) = (int)(a >> 15)` (combo.c line 52): arithmetic
right shift by 15. -/
def fix2int15 (a : Int) : Int := Int.fdiv a 32768

/-- The macro `float2fix15(a) = (fix15)((a)*32768.0)` specialised to the
constant `0.4` used for alpha-max-beta-min (combo.c line 360):
`0.4 * 32768.0 = 13107.2`, and the C cast truncates toward zero. -/
def zero_point_4 : Int := 13107

/-- The constant `scale_out = float2fix15(0.5)`, the output volume scale
(combo.c line 85). -/
def scale_out : Int := 16384

/-- The raw `#define divfix(a,b) (fix15)( (((signed long long)(a)) << 15) / (b))`
(combo.c line 54) for nonzero `b`: C `/` on integers truncates toward zero
(`Int.tdiv`).  (Lean's `Int.tdiv x 0 = 0` is never relied upon: the zero case
is undefined in the C source and is guarded in `divfix` below.) -/
def divfixRaw (a b : Int) : Int :=
  i32 (Int.tdiv (i64 (i64 a * 32768)) b)

/-- Error condition for the division operation. -/
inductive FixError where
  | divideByZero
deriving DecidableEq, Repr

/-- Modelled from the spec: the spec's `div` operation.  The C macro `divfix`
(combo.c line 54) performs `(i64(a) << 15) / b` with no guard, so `b == 0`
is undefined behaviour (a trap on the target); the spec directs the
implementer to report an explicit DivideByZero condition instead.  The
nonzero branch is the source macro (`divfixRaw`). -/
def divfix (a b : Int) : Except FixError Int :=
  if b = 0 then .error .divideByZero else .ok (divfixRaw a b)

/-- The claim's specification-side multiplication: the exact mathematical
product right-shifted by 15 bits (floor), reduced modulo `2^32` and
reinterpreted as a signed 32-bit value. -/
def mulSpec (a b : Int) : Int := toSigned 32 (Int.fdiv (a * b) 32768)

/-! ## Bit-reversal phase of `FFTfix` (combo.c lines 398-418) -/

/-- The bit-reversed index computation of `FFTfix` (combo.c lines 400-408),
parameterised by the final shift (`SHIFT_AMOUNT = 16 - log2 N`; the source
fixes it to 6 for `N = 1024`).  `m` and `mr` are C `unsigned short`s, so each
assignment truncates modulo `2^16`. -/
def mrOf (shift m : Nat) : Nat :=
  let mr1 := (((m >>> 1) &&& 0x5555) ||| ((m &&& 0x5555) <<< 1)) % 65536
  let mr2 := (((mr1 >>> 2) &&& 0x3333) ||| ((mr1 &&& 0x3333) <<< 2)) % 65536
  let mr3 := (((mr2 >>> 4) &&& 0x0F0F) ||| ((mr2 &&& 0x0F0F) <<< 4)) % 65536
  let mr4 := (((mr3 >>> 8) &&& 0x00FF) ||| ((mr3 &&& 0x00FF) <<< 8)) % 65536
  mr4 >>> shift

/-- Reversal of the low `w` bits of `m` (specification-side definition). -/
def bitRev (w m : Nat) : Nat :=
  (List.range w).foldl (fun acc i => acc * 2 + ((m >>> i) &&& 1)) 0

/-- One iteration of the bit-reversal loop body (combo.c lines 400-417): the
pair of arrays is modelled as a function from indices to (real, imag) pairs;
the swap happens exactly when `mr > m` (`if (mr<=m) continue`). -/
def condSwap (shift : Nat) (f : Nat → Int × Int) (m : Nat) : Nat → Int × Int :=
  let mr := mrOf shift m
  if mr ≤ m then f
  else fun x => if x = m then f mr else if x = mr then f m else f x

/-! ## Magnitude pass and peak search (combo.c lines 522-536) -/

/-- The approximate magnitude stored back into `fr[i]` (combo.c lines
525-529): `fr[i] = max(|fr[i]|,|fi[i]|) + multfix15(min(|fr[i]|,|fi[i]|),
zero_point_4)` (alpha max plus beta min). -/
def magAt (re im : Nat → Int) (i : Nat) : Int :=
  let r := |re i|
  let q := |im i|
  max r q + multfix15 (min r q) zero_point_4

/-- One iteration of the maximum-tracking conditional (combo.c lines
531-535): `if (fr[i] > max_fr && i>4) { max_fr = fr[i]; max_fr_dex = i; }`. -/
def peakStep (re im : Nat → Int) (acc : Int × Nat) (i : Nat) : Int × Nat :=
  if magAt re im i > acc.1 ∧ i > 4 then (magAt re im i, i) else acc

/-- The whole magnitude/peak loop over the first `NUM_SAMPLES>>1 = 512` bins,
starting from `max_fr = 0`, `max_fr_dex = 0` (combo.c lines 512-513, 523). -/
def peakSearch (re im : Nat → Int) : Int × Nat :=
  (List.range 512).foldl (peakStep re im) (0, 0)

/-- A spectrum whose only energy is in bin 7. -/
def reBin7 : Nat → Int := fun i => if i = 7 then 100000 else 0

/-! ## DDS + envelope timer callback (combo.c lines 141-188) -/

/-- The constant `ATTACK_TIME = 3000` (combo.c line 88). -/
def ATTACK_TIME : Nat := 3000

/-- The constant `DECAY_TIME = 3000` (combo.c line 89). -/
def DECAY_TIME : Nat := 3000

/-- The constant `BEEP_DURATION = ATTACK_TIME + SUSTAIN_TIME + DECAY_TIME` with
`SUSTAIN_TIME = 10000 - (ATTACK_TIME + DECAY_TIME)` (combo.c lines 90-91). -/
def BEEP_DURATION : Nat := 10000

/-- The constant `BEEP_REPEAT_INTERVAL = 40000` (combo.c line 92). -/
def BEEP_REPEAT_INTERVAL : Nat := 40000

/-- The constant `CHIRP_CYCLE_TIME = BEEP_DURATION + BEEP_REPEAT_INTERVAL`
(combo.c line 93). -/
def CHIRP_CYCLE_TIME : Nat := BEEP_DURATION + BEEP_REPEAT_INTERVAL

/-- The constant `DAC_config_chan_B = 0b1011000000000000` (combo.c line 111). -/
def DAC_config_chan_B : Nat := 0b1011000000000000

/-- The increment `phase_incr_main_0 = (2300.0*two32)/Fs_DDS` (combo.c line
69): the
double-precision value `2300 * 2^32 / 40000 = 246960619.52` truncated by the
cast to `unsigned int`. -/
def phase_incr_main_0 : Nat := 246960619

/-- The ramp rate `attack_inc = divfix(max_amplitude, int2fix15(ATTACK_TIME))`
with
`max_amplitude = int2fix15(1)` (combo.c lines 80-81, 586). -/
def attack_inc : Int := divfixRaw (int2fix15 1) (int2fix15 3000)

/-- The ramp rate `decay_inc = divfix(max_amplitude, int2fix15(DECAY_TIME))`
(combo.c lines 82, 587). -/
def decay_inc : Int := divfixRaw (int2fix15 1) (int2fix15 3000)

/-- The per-core state touched by `repeating_timer_callback_core_0`:
`phase_accum_main_0` (a `u32`), `STATE_L`, `count_L`, `current_amplitude_0`,
`DAC_output_0` and `DAC_data_L`. -/
structure DDSState where
  phase_accum : Nat
  STATE_L : Nat
  count_L : Nat
  amp : Int
  dacOut : Int
  dacData : Nat
deriving DecidableEq, Repr

/-- The low 16 bits of a C `int`, as produced by `& 0xffff` on the
two's-complement representation. -/
def lowBits16 (x : Int) : Nat := (x % 65536).toNat

/-- One invocation of `repeating_timer_callback_core_0` (combo.c lines
141-188).  `table` is the 256-entry `sin_table` (populated from floating
point sines in `main`, hence kept abstract here); the second component is
the 16-bit word pushed over SPI to the DAC, `none` when no write happens. -/
def tick (table : Nat → Int) (s : DDSState) : DDSState × Option Nat :=
  if s.STATE_L = 0 then
    let phase1 := (s.phase_accum + phase_incr_main_0) % 2 ^ 32
    let out := fix2int15 (multfix15 (multfix15 s.amp scale_out)
      (table (phase1 >>> 24))) + 2048
    let amp1 :=
      if s.count_L < ATTACK_TIME then s.amp + attack_inc
      else if s.count_L > BEEP_DURATION - DECAY_TIME then s.amp - decay_inc
      else s.amp
    let data := DAC_config_chan_B ||| lowBits16 out
    let count1 := s.count_L + 1
    if count1 = BEEP_DURATION then
      (⟨phase1, 1, 0, amp1, out, data⟩, some data)
    else
      (⟨phase1, 0, count1, amp1, out, data⟩, some data)
  else
    let count1 := s.count_L + 1
    if count1 = BEEP_REPEAT_INTERVAL then
      (⟨s.phase_accum, 0, 0, 0, s.dacOut, s.dacData⟩, none)
    else
      (⟨s.phase_accum, s.STATE_L, count1, s.amp, s.dacOut, s.dacData⟩, none)

/-- Startup state: all the globals have static storage duration and start
at zero (`STATE_L = 0` is ACTIVE). -/
def initState : DDSState := ⟨0, 0, 0, 0, 0, 0⟩

/-- The state after `n` timer ticks from startup. -/
def dds (table : Nat → Int) (n : Nat) : DDSState :=
  (fun s => (tick table s).1)^[n] initState

/-- Closed form of the amplitude while ACTIVE, as a function of `count_L`. -/
def ampSpec (r : Nat) : Int :=
  if r ≤ 3000 then 10 * r
  else if r ≤ 7001 then 30000
  else 30000 - 10 * ((r : Int) - 7001)

/-- Closed form of the envelope machine after `n` ticks:
`(STATE_L, count_L, amplitude)`. -/
def envSpec (n : Nat) : Nat × Nat × Int :=
  let r := n % 50000
  if r < 10000 then (0, r, ampSpec r) else (1, r - 10000, 10)

/-- The envelope-only effect of one tick (the fields of `tick` that do not
depend on the phase accumulator or the sine table). -/
def envTick (e : Nat × Nat × Int) : Nat × Nat × Int :=
  if e.1 = 0 then
    let amp1 :=
      if e.2.1 < ATTACK_TIME then e.2.2 + attack_inc
      else if e.2.1 > BEEP_DURATION - DECAY_TIME then e.2.2 - decay_inc
      else e.2.2
    if e.2.1 + 1 = BEEP_DURATION then (1, 0, amp1) else (0, e.2.1 + 1, amp1)
  else
    if e.2.1 + 1 = BEEP_REPEAT_INTERVAL then (0, 0, 0)
    else (e.1, e.2.1 + 1, e.2.2)

/-! ## Two-core ping-pong handshake (combo.c lines 254-307, 596-598) -/

/-- Shared state of the two heartbeat protothreads plus ghost counters.
`pc0`/`pc1` are the program points of `protothread_core_0` /
`protothread_core_1`: 0 = blocked at `PT_SEM_SAFE_WAIT`, 1 = about to
increment `global_counter`, 2 = about to print telemetry and clear
`FFT_count`, 3 = sleeping in `PT_YIELD_usec(1000000)`, 4 = about to
`PT_SEM_SAFE_SIGNAL` the other core.  `sem0`/`sem1` are `core_0_go` /
`core_1_go`.  The ghost fields count completed waits (`w0`, `w1`) and
performed signals (`g0`, `g1`) of each thread, for stating the protocol
properties. -/
structure PingPong where
  pc0 : Nat
  pc1 : Nat
  sem0 : Nat
  sem1 : Nat
  counter : Nat
  fftCount : Nat
  w0 : Nat
  w1 : Nat
  g0 : Nat
  g1 : Nat
deriving DecidableEq, Repr

/-- Modelled from the spec: the semantics of `PT_SEM_SAFE_WAIT` and
`PT_SEM_SAFE_SIGNAL` (the macros live in `pt_cornell_rp2040_v1.h`, which is
not among the repository sources; the spec describes them as two binary
semaphores: wait blocks until signalled then consumes, signal posts).  One
interleaving step of the system: either heartbeat thread advances one
program point, per the bodies of `protothread_core_0` and
`protothread_core_1` (wait, `global_counter++`, report + `FFT_count = 0`,
sleep, signal the other core), or the FFT thread bumps `FFT_count`
(combo.c line 520). -/
inductive Step : PingPong → PingPong → Prop where
  | wait0 (s : PingPong) (h : s.pc0 = 0) (hs : 0 < s.sem0) :
      Step s { s with pc0 := 1, sem0 := s.sem0 - 1, w0 := s.w0 + 1 }
  | inc0 (s : PingPong) (h : s.pc0 = 1) :
      Step s { s with pc0 := 2, counter := s.counter + 1 }
  | report0 (s : PingPong) (h : s.pc0 = 2) :
      Step s { s with pc0 := 3, fftCount := 0 }
  | sleep0 (s : PingPong) (h : s.pc0 = 3) :
      Step s { s with pc0 := 4 }
  | signal0 (s : PingPong) (h : s.pc0 = 4) :
      Step s { s with pc0 := 0, sem1 := s.sem1 + 1, g0 := s.g0 + 1 }
  | wait1 (s : PingPong) (h : s.pc1 = 0) (hs : 0 < s.sem1) :
      Step s { s with pc1 := 1, sem1 := s.sem1 - 1, w1 := s.w1 + 1 }
  | inc1 (s : PingPong) (h : s.pc1 = 1) :
      Step s { s with pc1 := 2, counter := s.counter + 1 }
  | report1 (s : PingPong) (h : s.pc1 = 2) :
      Step s { s with pc1 := 3, fftCount := 0 }
  | sleep1 (s : PingPong) (h : s.pc1 = 3) :
      Step s { s with pc1 := 4 }
  | signal1 (s : PingPong) (h : s.pc1 = 4) :
      Step s { s with pc1 := 0, sem0 := s.sem0 + 1, g1 := s.g1 + 1 }
  | fft (s : PingPong) :
      Step s { s with fftCount := s.fftCount + 1 }

/-- Startup state: `PT_SEM_SAFE_INIT(&core_0_go, 1)` and
`PT_SEM_SAFE_INIT(&core_1_go, 0)` (combo.c lines 597-598), both threads
blocked at their wait, all counters zero. -/
def ppInit : PingPong := ⟨0, 0, 1, 0, 0, 0, 0, 0, 0, 0⟩

/-- States reachable from startup under any interleaving. -/
inductive Reachable : PingPong → Prop where
  | init : Reachable ppInit
  | step {s t : PingPong} : Reachable s → Step s t → Reachable t

/-- The inductive protocol invariant: a single "token" circulates (the two
semaphores plus the two busy heartbeat bodies hold exactly one between
them), the shared counter counts completed waits, and each thread's wait
count is its signal count plus its busy bit. -/
def Inv (s : PingPong) : Prop :=
  s.sem0 + s.sem1 + (if s.pc0 = 0 then 0 else 1) +
      (if s.pc1 = 0 then 0 else 1) = 1 ∧
  s.counter = s.g0 + s.g1 + (if 2 ≤ s.pc0 then 1 else 0) +
      (if 2 ≤ s.pc1 then 1 else 0) ∧
  s.w0 = s.g0 + (if s.pc0 = 0 then 0 else 1) ∧
  s.w1 = s.g1 + (if s.pc1 = 0 then 0 else 1) ∧
  s.sem0 + s.w0 = 1 + s.g1 ∧
  s.sem1 + s.w1 = s.g0

/-- The whole bit-reversal loop `for (m=1; m<n-1; m++)` (combo.c line 398). -/
def bitrevPhase (shift n : Nat) (f : Nat → Int × Int) : Nat → Int × Int :=
  (List.range' 1 (n - 2)).foldl (condSwap shift) f

/-- The final value of `max_fr_dex`. -/
def max_fr_dex (re im : Nat → Int) : Nat := (peakSearch re im).2

/-- The final value of `max_fr`. -/
def max_fr (re im : Nat → Int) : Int := (peakSearch re im).1

/-- A spectrum whose only energy is in bin 4. -/
def reBin4 : Nat → Int := fun i => if i = 4 then 32768 else 0

/-- An identically zero imaginary part. -/
def imZero : Nat → Int := fun _ => 0

lemma toSigned_eq_self {w : Nat} {n : Int} (hw : 1 ≤ w)
    (h1 : -(2 ^ (w - 1)) ≤ n) (h2 : n < 2 ^ (w - 1)) : toSigned w n = n := by
  have hsplit : (2 : Int) ^ w = 2 ^ (w - 1) * 2 := by
    rw [← pow_succ]
    congr 1
    omega
  have hpos : (0 : Int) < 2 ^ (w - 1) := by positivity
  unfold toSigned
  rcases le_or_lt 0 n with hn | hn
  · have : n % 2 ^ w = n := Int.emod_eq_of_lt hn (by omega)
    simp only [this]
    omega
  · have hmod : n % 2 ^ w = n + 2 ^ w := by
      have h0 : (0 : Int) ≤ n + 2 ^ w := by omega
      have h3 : n + 2 ^ w < 2 ^ w := by omega
      have heq : n % 2 ^ w = (n + 2 ^ w) % 2 ^ w := by
        conv_rhs => rw [show n + 2 ^ w = n + 2 ^ w * 1 by ring]
        rw [Int.add_mul_emod_self_left]
      rw [heq]
      exact Int.emod_eq_of_lt h0 h3
    simp only [hmod]
    omega

lemma i64_eq_self {n : Int} (h1 : -(2 ^ 63) ≤ n) (h2 : n < 2 ^ 63) :
    i64 n = n :=
  toSigned_eq_self (by norm_num) h1 h2

/-- C1: for every pair of 32-bit fixed-point values `a` and `b`,
`multfix15 a b` equals the exact mathematical product arithmetically
right-shifted by 15 bits, reduced modulo `2^32` and reinterpreted as a
signed 32-bit integer (`mulSpec`); on overflow it wraps rather than
saturates (wrapping is what `toSigned 32` performs). -/
theorem multfix15_eq_mulSpec (a b : Int)
    (ha1 : -(2 ^ 31) ≤ a) (ha2 : a < 2 ^ 31)
    (hb1 : -(2 ^ 31) ≤ b) (hb2 : b < 2 ^ 31) :
    multfix15 a b = mulSpec a b := by
  have ha : i64 a = a := i64_eq_self (by omega) (by omega)
  have hb : i64 b = b := i64_eq_self (by omega) (by omega)
  have habs1 : |a| ≤ 2 ^ 31 := by rw [abs_le]; omega
  have habs2 : |b| ≤ 2 ^ 31 := by rw [abs_le]; omega
  have hprod : |a * b| ≤ 2 ^ 62 := by
    rw [abs_mul]
    calc |a| * |b| ≤ 2 ^ 31 * 2 ^ 31 :=
          mul_le_mul habs1 habs2 (abs_nonneg _) (by norm_num)
      _ = 2 ^ 62 := by norm_num
  rw [abs_le] at hprod
  have hab : i64 (a * b) = a * b := i64_eq_self (by omega) (by omega)
  unfold multfix15 mulSpec
  rw [ha, hb, hab]
  rfl

/-- Witness for `multfix15_eq_mulSpec` at a concrete overflowing input:
`32768.0 * 32768.0` in Q16.15 wraps all the way to `0`. -/
theorem multfix15_eq_mulSpec_witness :
    multfix15 1073741824 1073741824 = mulSpec 1073741824 1073741824 ∧
    multfix15 1073741824 1073741824 = 0 :=
  ⟨multfix15_eq_mulSpec 1073741824 1073741824 (by norm_num) (by norm_num)
      (by norm_num) (by norm_num), by decide⟩

/-- C2: for every fixed-point value `a`, the division operation applied with
divisor zero fails with an explicitly reported DivideByZero condition. -/
theorem divfix_zero_divisor (a : Int) :
    divfix a 0 = .error .divideByZero := rfl

/-- C5: the bit-reversal phase computes `mr` as the reversal of `m`'s low
`log2 N` bits (shown for the source's `N = 1024`, shift 6, and for the
`N = 8` instantiation, shift 13), and the resulting permutation at `N = 8`
is `[0,4,2,6,1,5,3,7]` for arbitrary array contents. -/
theorem bitrevPhase_correct :
    (∀ m, m < 1024 → mrOf 6 m = bitRev 10 m) ∧
    (∀ m, m < 8 → mrOf 13 m = bitRev 3 m) ∧
    (∀ f : Nat → Int × Int, ∀ j, j < 8 →
      bitrevPhase 13 8 f j = f ([0, 4, 2, 6, 1, 5, 3, 7].getD j 0)) := by
  refine ⟨by decide, by decide, ?_⟩
  intro f j hj
  interval_cases j <;> rfl

/-- Witness for `bitrevPhase_correct` at concrete inputs. -/
theorem bitrevPhase_correct_witness :
    mrOf 6 5 = bitRev 10 5 ∧
    bitrevPhase 13 8 (fun x => ((x : Int), 0)) 1 = ((4 : Int), (0 : Int)) := by
  refine ⟨bitrevPhase_correct.1 5 (by norm_num), ?_⟩
  have h := bitrevPhase_correct.2.2 (fun x => ((x : Int), 0)) 1 (by norm_num)
  simpa using h

lemma peakSearch_aux (re im : Nat → Int) (n : Nat) :
    ((List.range n).foldl (peakStep re im) (0, 0) = (0, 0) ∧
      ∀ j, 5 ≤ j → j < n → magAt re im j ≤ 0) ∨
    (5 ≤ ((List.range n).foldl (peakStep re im) (0, 0)).2 ∧
      ((List.range n).foldl (peakStep re im) (0, 0)).2 < n ∧
      0 < ((List.range n).foldl (peakStep re im) (0, 0)).1 ∧
      ((List.range n).foldl (peakStep re im) (0, 0)).1 =
        magAt re im ((List.range n).foldl (peakStep re im) (0, 0)).2 ∧
      ∀ j, 5 ≤ j → j < n →
        magAt re im j ≤ ((List.range n).foldl (peakStep re im) (0, 0)).1) := by
  induction n with
  | zero => exact Or.inl ⟨rfl, fun j h1 h2 => absurd h2 (by omega)⟩
  | succ n ih =>
    rw [List.range_succ, List.foldl_append, List.foldl_cons, List.foldl_nil]
    by_cases hc :
      magAt re im n > ((List.range n).foldl (peakStep re im) (0, 0)).1 ∧ n > 4
    case pos =>
      right
      rw [peakStep, if_pos hc]
      rcases ih with ⟨h0, hall⟩ | ⟨h5, hlt, hpos, heq, hall⟩
      · have hp1 : ((List.range n).foldl (peakStep re im) (0, 0)).1 = 0 := by
          rw [h0]
        refine ⟨by omega, by omega, by rw [← hp1]; exact hc.1, rfl, ?_⟩
        intro j hj1 hj2
        rcases Nat.lt_succ_iff_lt_or_eq.mp hj2 with hj | hj
        · refine le_trans (hall j hj1 hj) (le_of_lt ?_)
          rw [← hp1]; exact hc.1
        · subst hj; exact le_refl _
      · refine ⟨by omega, by omega, lt_trans hpos hc.1, rfl, ?_⟩
        intro j hj1 hj2
        rcases Nat.lt_succ_iff_lt_or_eq.mp hj2 with hj | hj
        · exact le_trans (hall j hj1 hj) (le_of_lt hc.1)
        · subst hj; exact le_refl _
    case neg =>
      rw [peakStep, if_neg hc]
      push_neg at hc
      rcases ih with ⟨h0, hall⟩ | ⟨h5, hlt, hpos, heq, hall⟩
      · left
        refine ⟨h0, ?_⟩
        intro j hj1 hj2
        rcases Nat.lt_succ_iff_lt_or_eq.mp hj2 with hj | hj
        · exact hall j hj1 hj
        · subst hj
          by_contra hcon
          push_neg at hcon
          have hp1 : ((List.range j).foldl (peakStep re im) (0, 0)).1 = 0 := by
            rw [h0]
          have := hc (by rw [hp1]; exact hcon)
          omega
      · right
        refine ⟨h5, by omega, hpos, heq, ?_⟩
        intro j hj1 hj2
        rcases Nat.lt_succ_iff_lt_or_eq.mp hj2 with hj | hj
        · exact hall j hj1 hj
        · subst hj
          by_contra hcon
          push_neg at hcon
          have := hc hcon
          omega

/-- Counterexample to C4 as stated: on a spectrum whose unique strictly
maximal magnitude among all bins other than the lowest four (0-3) sits at
bin 4, the code leaves `max_fr_dex = 0` — the guard `i>4` excludes the
lowest **five** bins (indices 0-4), not four. -/
theorem peakSearch_bin4_counterexample :
    (∀ i, i < 512 → i ≠ 4 → magAt reBin4 imZero i < magAt reBin4 imZero 4) ∧
    max_fr_dex reBin4 imZero = 0 := by
  have hm0 : multfix15 0 zero_point_4 = 0 := by decide
  have hz : ∀ i, i ≠ 4 → magAt reBin4 imZero i = 0 := by
    intro i hne
    simp [magAt, reBin4, imZero, hne, hm0]
  have h4 : magAt reBin4 imZero 4 = 32768 := by decide
  constructor
  · intro i hi hne
    rw [hz i hne, h4]
    norm_num
  · rcases peakSearch_aux reBin4 imZero 512 with ⟨h0, -⟩ | ⟨h5, hlt, hpos, heq, -⟩
    · show (peakSearch reBin4 imZero).2 = 0
      unfold peakSearch
      rw [h0]
    · exfalso
      have hzz := hz ((List.range 512).foldl (peakStep reBin4 imZero) (0, 0)).2
        (by omega)
      rw [heq, hzz] at hpos
      exact lt_irrefl 0 hpos

/-- C4 (amended): the peak search computes, for each of the first `N/2`
bins, the magnitude `max(|re|,|im|) + multfix15(min(|re|,|im|), 0.4)`, and —
excluding the lowest **five** bins (indices 0-4) — sets `max_fr_dex` to the
index of the maximal such magnitude whenever some considered bin has
positive magnitude (otherwise it degenerates to 0). -/
theorem peakSearch_max (re im : Nat → Int)
    (h : ∃ i, 5 ≤ i ∧ i < 512 ∧ 0 < magAt re im i) :
    5 ≤ max_fr_dex re im ∧ max_fr_dex re im < 512 ∧
    max_fr re im = magAt re im (max_fr_dex re im) ∧
    ∀ j, 5 ≤ j → j < 512 → magAt re im j ≤ max_fr re im := by
  obtain ⟨i, h5, hlt, hpos⟩ := h
  rcases peakSearch_aux re im 512 with ⟨_, hall⟩ | ⟨a, b, _, c, d⟩
  · exact absurd (hall i h5 hlt) (by omega)
  · exact ⟨a, b, c, d⟩

/-- Witness for `peakSearch_max` at a concrete spectrum. -/
theorem peakSearch_max_witness :
    5 ≤ max_fr_dex reBin7 imZero ∧ max_fr_dex reBin7 imZero < 512 ∧
    max_fr reBin7 imZero = magAt reBin7 imZero (max_fr_dex reBin7 imZero) ∧
    ∀ j, 5 ≤ j → j < 512 → magAt reBin7 imZero j ≤ max_fr reBin7 imZero :=
  peakSearch_max reBin7 imZero ⟨7, by norm_num, by norm_num, by decide⟩

lemma attack_inc_eq : attack_inc = 10 := by decide

lemma decay_inc_eq : decay_inc = 10 := by decide

lemma tick_envTick (table : Nat → Int) (s : DDSState) :
    ((tick table s).1.STATE_L, (tick table s).1.count_L, (tick table s).1.amp)
      = envTick (s.STATE_L, s.count_L, s.amp) := by
  by_cases h0 : s.STATE_L = 0
  · by_cases hD : s.count_L + 1 = BEEP_DURATION
    · simp [tick, envTick, h0, hD]
    · simp [tick, envTick, h0, hD]
  · by_cases hR : s.count_L + 1 = BEEP_REPEAT_INTERVAL
    · simp [tick, envTick, h0, hR]
    · simp [tick, envTick, h0, hR]

lemma envTick_silent_step (c : Nat) (a : Int)
    (h : ¬(c + 1 = BEEP_REPEAT_INTERVAL)) :
    envTick (1, c, a) = (1, c + 1, a) := by
  simp [envTick, h]

lemma envTick_silent_end (c : Nat) (a : Int)
    (h : c + 1 = BEEP_REPEAT_INTERVAL) :
    envTick (1, c, a) = (0, 0, 0) := by
  simp [envTick, h]

lemma envTick_envSpec (n : Nat) : envTick (envSpec n) = envSpec (n + 1) := by
  obtain ⟨q, r, hr, rfl⟩ : ∃ q r, r < 50000 ∧ n = 50000 * q + r :=
    ⟨n / 50000, n % 50000, Nat.mod_lt _ (by norm_num), by omega⟩
  have hm : (50000 * q + r) % 50000 = r := by omega
  by_cases hA : r < 10000
  · have hspec : envSpec (50000 * q + r) = (0, r, ampSpec r) := by
      rw [envSpec]
      simp only [hm]
      rw [if_pos hA]
    by_cases hend : r + 1 = 10000
    · have hm2 : (50000 * q + r + 1) % 50000 = 10000 := by omega
      have h2 : envSpec (50000 * q + r + 1) = (1, 0, 10) := by
        rw [envSpec]
        simp only [hm2]
        norm_num
      have hr9 : r = 9999 := by omega
      subst hr9
      rw [hspec, h2]
      norm_num [envTick, ampSpec, ATTACK_TIME, BEEP_DURATION, DECAY_TIME,
        decay_inc_eq]
    · have hm2 : (50000 * q + r + 1) % 50000 = r + 1 := by omega
      have h2 : envSpec (50000 * q + r + 1) = (0, r + 1, ampSpec (r + 1)) := by
        rw [envSpec]
        simp only [hm2]
        rw [if_pos (by omega)]
      rw [hspec, h2]
      simp only [envTick, ampSpec, ATTACK_TIME, BEEP_DURATION, DECAY_TIME,
        BEEP_REPEAT_INTERVAL, attack_inc_eq, decay_inc_eq]
      norm_num
      split_ifs <;> (try simp only [Prod.mk.injEq, true_and, and_true]) <;>
        omega
  · have hspec : envSpec (50000 * q + r) = (1, r - 10000, 10) := by
      rw [envSpec]
      simp only [hm]
      rw [if_neg hA]
    by_cases hend : r = 49999
    · subst hend
      have hm2 : (50000 * q + 49999 + 1) % 50000 = 0 := by omega
      have h2 : envSpec (50000 * q + 49999 + 1) = (0, 0, 0) := by
        rw [envSpec]
        simp only [hm2]
        norm_num [ampSpec]
      rw [hspec, h2, envTick_silent_end (49999 - 10000) 10 (by decide)]
    · have hm2 : (50000 * q + r + 1) % 50000 = r + 1 := by omega
      have h2 : envSpec (50000 * q + r + 1) = (1, r + 1 - 10000, 10) := by
        rw [envSpec]
        simp only [hm2]
        rw [if_neg (by omega)]
      rw [hspec, h2,
        envTick_silent_step (r - 10000) 10
          (show ¬(r - 10000 + 1 = 40000) by omega)]
      have harith : r - 10000 + 1 = r + 1 - 10000 := by omega
      rw [harith]

/-- The envelope fields of the state after `n` ticks follow `envSpec`,
independently of the sine table. -/
lemma dds_env_char (table : Nat → Int) (n : Nat) :
    (dds table n).STATE_L = (envSpec n).1 ∧
    (dds table n).count_L = (envSpec n).2.1 ∧
    (dds table n).amp = (envSpec n).2.2 := by
  induction n with
  | zero =>
    refine ⟨?_, ?_, ?_⟩ <;> simp [dds, envSpec, ampSpec, initState]
  | succ n ih =>
    obtain ⟨h1, h2, h3⟩ := ih
    have hstep : dds table (n + 1) = (tick table (dds table n)).1 := by
      rw [dds, Function.iterate_succ_apply']
      rfl
    have hT := tick_envTick table (dds table n)
    rw [h1, h2, h3, envTick_envSpec] at hT
    rw [hstep]
    exact ⟨congrArg Prod.fst hT,
      congrArg (fun p => p.2.1) hT, congrArg (fun p => p.2.2) hT⟩

lemma fdiv15_bound {x : Int} (h1 : -(2 ^ 46) < x) (h2 : x < 2 ^ 46) :
    -(2 ^ 31) ≤ Int.fdiv x 32768 ∧ Int.fdiv x 32768 < 2 ^ 31 := by
  rw [Int.fdiv_eq_ediv _ (by norm_num : (0 : Int) ≤ 32768)]
  omega

/-- On operands small enough that none of the casts wrap, `multfix15` is plain
floor division of the product by `2^15`. -/
lemma multfix15_eq_fdiv {a b : Int}
    (ha1 : -(2 ^ 31) ≤ a) (ha2 : a ≤ 2 ^ 31)
    (hb1 : -(2 ^ 31) ≤ b) (hb2 : b ≤ 2 ^ 31)
    (hp1 : -(2 ^ 46) < a * b) (hp2 : a * b < 2 ^ 46) :
    multfix15 a b = Int.fdiv (a * b) 32768 := by
  have ha : i64 a = a := i64_eq_self (by omega) (by omega)
  have hb : i64 b = b := i64_eq_self (by omega) (by omega)
  have hab : i64 (a * b) = a * b := i64_eq_self (by omega) (by omega)
  have hq := fdiv15_bound hp1 hp2
  unfold multfix15
  rw [ha, hb, hab]
  unfold i32
  refine toSigned_eq_self (by norm_num) ?_ ?_
  · have h31 : -((2 : Int) ^ (32 - 1)) = -(2 ^ 31) := by norm_num
    rw [h31]
    omega
  · have h31 : ((2 : Int) ^ (32 - 1)) = 2 ^ 31 := by norm_num
    rw [h31]
    omega

/-- For an even amplitude `a` in the envelope's range and a sine-table value
`s` in the table's range, scaling before or after the sine multiplication
gives the same fixed-point result: `mul(mul(a, 0.5), s) = mul(mul(a, s), 0.5)`.
This is what makes the claim's association order agree with the code's. -/
lemma multfix15_scale_swap (a s : Int) (ha0 : 0 ≤ a) (ha1 : a ≤ 30000)
    (ha2 : 2 ∣ a) (hs1 : -(2047 * 32768) ≤ s) (hs2 : s ≤ 2047 * 32768) :
    multfix15 (multfix15 a scale_out) s = multfix15 (multfix15 a s) scale_out := by
  obtain ⟨c, rfl⟩ := ha2
  have hc0 : 0 ≤ c := by omega
  have hc1 : c ≤ 15000 := by omega
  have hcs1 : -(2 ^ 46) < c * s := by nlinarith
  have hcs2 : c * s < 2 ^ 46 := by nlinarith
  have h2cs1 : -(2 ^ 46) < 2 * c * s := by nlinarith
  have h2cs2 : 2 * c * s < 2 ^ 46 := by nlinarith
  -- inner left: mul(a, 0.5) = a/2 = c
  have h1 : multfix15 (2 * c) scale_out = c := by
    rw [show scale_out = (16384 : Int) from rfl,
      multfix15_eq_fdiv (by omega) (by omega) (by norm_num) (by norm_num)
        (by nlinarith) (by nlinarith),
      show (2 * c) * 16384 = c * 32768 by ring,
      Int.mul_fdiv_cancel _ (by norm_num)]
  -- inner right: mul(a, s)
  have hT : multfix15 (2 * c) s = Int.fdiv (2 * c * s) 32768 :=
    multfix15_eq_fdiv (by omega) (by omega) (by omega) (by omega)
      (by omega) (by omega)
  have hTb := fdiv15_bound h2cs1 h2cs2
  rw [h1, hT]
  -- outer left: mul(c, s); outer right: mul(T, 0.5)
  rw [multfix15_eq_fdiv (by omega) (by omega) (by omega) (by omega)
      (by omega) (by omega),
    show scale_out = (16384 : Int) from rfl,
    multfix15_eq_fdiv (by omega) (by omega) (by norm_num) (by norm_num)
      (by nlinarith [hTb.1, hTb.2]) (by nlinarith [hTb.1, hTb.2])]
  rw [Int.fdiv_eq_ediv _ (by norm_num : (0 : Int) ≤ 32768),
    Int.fdiv_eq_ediv _ (by norm_num : (0 : Int) ≤ 32768),
    Int.fdiv_eq_ediv _ (by norm_num : (0 : Int) ≤ 32768)]
  have hmul : 2 * c * s = 2 * (c * s) := by ring
  omega

/-- Amplitude range facts for every reachable state: the amplitude stays in
`[0, 30000]` and is always even (every reachable value is a multiple of the
increment 10). -/
lemma dds_amp_props (table : Nat → Int) (n : Nat) :
    0 ≤ (dds table n).amp ∧ (dds table n).amp ≤ 30000 ∧ 2 ∣ (dds table n).amp := by
  obtain ⟨-, -, h3⟩ := dds_env_char table n
  rw [h3]
  have h50 : n % 50000 < 50000 := Nat.mod_lt _ (by norm_num)
  rw [envSpec]
  by_cases hA : n % 50000 < 10000
  · simp only [if_pos hA]
    rw [ampSpec]
    split_ifs <;> refine ⟨by omega, by omega, by omega⟩
  · simp only [if_neg hA]
    exact ⟨by norm_num, by norm_num, by norm_num⟩

/-- Counterexample to C7 as stated: after 10001 ticks from startup the
machine is in SILENT state and the amplitude is 10, not 0 — the residual
of the decay ramp is cleared only on the SILENT-to-ACTIVE transition tick. -/
theorem silent_amp_counterexample :
    (dds (fun _ => 0) 10001).STATE_L = 1 ∧ (dds (fun _ => 0) 10001).amp ≠ 0 := by
  obtain ⟨h1, -, h3⟩ := dds_env_char (fun _ => 0) 10001
  refine ⟨?_, ?_⟩
  · rw [h1]
    decide
  · rw [h3]
    decide

/-- C7 (amended): in every reachable SILENT state the amplitude holds the
residual decay value 10 rather than 0; on the tick where the counter reaches
`BEEP_REPEAT_INTERVAL` the machine forces the amplitude to 0, switches to
ACTIVE and resets the counter to 0. -/
theorem silent_state_invariant :
    (∀ (table : Nat → Int) (n : Nat),
      (dds table n).STATE_L = 1 → (dds table n).amp = 10) ∧
    (∀ (table : Nat → Int) (s : DDSState),
      s.STATE_L = 1 → s.count_L + 1 = BEEP_REPEAT_INTERVAL →
      (tick table s).1.STATE_L = 0 ∧ (tick table s).1.count_L = 0 ∧
      (tick table s).1.amp = 0) := by
  constructor
  · intro table n h
    obtain ⟨h1, -, h3⟩ := dds_env_char table n
    rw [h] at h1
    rw [h3]
    by_cases hA : n % 50000 < 10000
    · rw [envSpec] at h1
      simp only [if_pos hA] at h1
      exact absurd h1 (by norm_num)
    · rw [envSpec]
      simp only [if_neg hA]
  · intro table s h1 h2
    have hne : ¬(s.STATE_L = 0) := by omega
    refine ⟨?_, ?_, ?_⟩ <;> simp [tick, hne, h2]

/-- Witness for `silent_state_invariant` at concrete inputs. -/
theorem silent_state_invariant_witness :
    (dds (fun _ => 0) 10001).amp = 10 ∧
    ((tick (fun _ => 0) ⟨0, 1, 39999, 10, 0, 0⟩).1.STATE_L = 0 ∧
      (tick (fun _ => 0) ⟨0, 1, 39999, 10, 0, 0⟩).1.count_L = 0 ∧
      (tick (fun _ => 0) ⟨0, 1, 39999, 10, 0, 0⟩).1.amp = 0) :=
  ⟨silent_state_invariant.1 (fun _ => 0) 10001
      (by rw [(dds_env_char (fun _ => 0) 10001).1]; decide),
    silent_state_invariant.2 (fun _ => 0) ⟨0, 1, 39999, 10, 0, 0⟩ rfl (by decide)⟩

/-- The amplitude at tick `CHIRP_CYCLE_TIME * j + r` of an ACTIVE phase. -/
lemma dds_amp_at (table : Nat → Int) (j r : Nat) (h : r < 10000) :
    (dds table (CHIRP_CYCLE_TIME * j + r)).amp = ampSpec r := by
  obtain ⟨-, -, h3⟩ := dds_env_char table (CHIRP_CYCLE_TIME * j + r)
  rw [h3]
  have hc : CHIRP_CYCLE_TIME = 50000 := rfl
  rw [hc] at h3 ⊢
  have hm : (50000 * j + r) % 50000 = r := by omega
  rw [envSpec]
  simp only [hm]
  rw [if_pos h]

lemma ampSpec_mono_attack {m n : Nat} (h1 : m ≤ n) (h2 : n < 3000) :
    ampSpec m ≤ ampSpec n := by
  rw [ampSpec, ampSpec]
  split_ifs <;> omega

lemma ampSpec_sustain {m n : Nat} (h1 : 3000 ≤ m) (h2 : m ≤ n) (h3 : n ≤ 7000) :
    ampSpec m = ampSpec n := by
  rw [ampSpec, ampSpec]
  split_ifs <;> omega

lemma ampSpec_decay {m n : Nat} (h1 : 7000 ≤ m) (h2 : m ≤ n) (h3 : n ≤ 9999) :
    ampSpec n ≤ ampSpec m := by
  rw [ampSpec, ampSpec]
  split_ifs <;> omega

/-- C8: within any ACTIVE phase the amplitude is monotonically non-decreasing
over the attack region, constant over the sustain region and monotonically
non-increasing over the decay region; the whole envelope (state, counter,
amplitude) is periodic with period exactly
`BEEP_DURATION + BEEP_REPEAT_INTERVAL` ticks (`CHIRP_CYCLE_TIME`), the
machine being ACTIVE precisely on the first `BEEP_DURATION` ticks of each
cycle. -/
theorem envelope_shape :
    (∀ (table : Nat → Int) (j m n : Nat), m ≤ n → n < ATTACK_TIME →
      (dds table (CHIRP_CYCLE_TIME * j + m)).amp ≤
        (dds table (CHIRP_CYCLE_TIME * j + n)).amp) ∧
    (∀ (table : Nat → Int) (j m n : Nat),
      ATTACK_TIME ≤ m → m ≤ n → n ≤ BEEP_DURATION - DECAY_TIME →
      (dds table (CHIRP_CYCLE_TIME * j + m)).amp =
        (dds table (CHIRP_CYCLE_TIME * j + n)).amp) ∧
    (∀ (table : Nat → Int) (j m n : Nat),
      BEEP_DURATION - DECAY_TIME ≤ m → m ≤ n → n < BEEP_DURATION →
      (dds table (CHIRP_CYCLE_TIME * j + n)).amp ≤
        (dds table (CHIRP_CYCLE_TIME * j + m)).amp) ∧
    (∀ (table : Nat → Int) (n : Nat),
      (dds table (n + CHIRP_CYCLE_TIME)).STATE_L = (dds table n).STATE_L ∧
      (dds table (n + CHIRP_CYCLE_TIME)).count_L = (dds table n).count_L ∧
      (dds table (n + CHIRP_CYCLE_TIME)).amp = (dds table n).amp) ∧
    (∀ (table : Nat → Int) (n : Nat),
      (dds table n).STATE_L = 0 ↔ n % CHIRP_CYCLE_TIME < BEEP_DURATION) := by
  have hc : CHIRP_CYCLE_TIME = 50000 := rfl
  refine ⟨?_, ?_, ?_, ?_, ?_⟩
  · intro table j m n h1 h2
    have h2a : n < 3000 := h2
    rw [dds_amp_at table j m (by omega), dds_amp_at table j n (by omega)]
    exact ampSpec_mono_attack h1 h2a
  · intro table j m n h1 h2 h3
    have h1a : 3000 ≤ m := h1
    have h3a : n ≤ 7000 := h3
    rw [dds_amp_at table j m (by omega), dds_amp_at table j n (by omega)]
    exact ampSpec_sustain h1a h2 h3a
  · intro table j m n h1 h2 h3
    have h1a : 7000 ≤ m := h1
    have h3a : n ≤ 9999 := by
      have h3b : n < 10000 := h3
      omega
    rw [dds_amp_at table j m (by omega), dds_amp_at table j n (by omega)]
    exact ampSpec_decay h1a h2 h3a
  · intro table n
    obtain ⟨a1, a2, a3⟩ := dds_env_char table (n + CHIRP_CYCLE_TIME)
    obtain ⟨b1, b2, b3⟩ := dds_env_char table n
    have he : envSpec (n + CHIRP_CYCLE_TIME) = envSpec n := by
      rw [hc, envSpec, envSpec]
      have hmod : (n + 50000) % 50000 = n % 50000 := by omega
      simp only [hmod]
    rw [a1, a2, a3, b1, b2, b3, he]
    exact ⟨rfl, rfl, rfl⟩
  · intro table n
    obtain ⟨b1, -, -⟩ := dds_env_char table n
    rw [b1, hc]
    show (envSpec n).1 = 0 ↔ n % 50000 < BEEP_DURATION
    have hd : BEEP_DURATION = 10000 := rfl
    rw [hd, envSpec]
    by_cases hA : n % 50000 < 10000 <;> simp [hA]

/-- Witness for `envelope_shape` at concrete inputs. -/
theorem envelope_shape_witness :
    (dds (fun _ => 0) (CHIRP_CYCLE_TIME * 0 + 100)).amp ≤
      (dds (fun _ => 0) (CHIRP_CYCLE_TIME * 0 + 200)).amp ∧
    ((dds (fun _ => 0) (0 + CHIRP_CYCLE_TIME)).STATE_L =
      (dds (fun _ => 0) 0).STATE_L ∧
      (dds (fun _ => 0) (0 + CHIRP_CYCLE_TIME)).count_L =
        (dds (fun _ => 0) 0).count_L ∧
      (dds (fun _ => 0) (0 + CHIRP_CYCLE_TIME)).amp = (dds (fun _ => 0) 0).amp) :=
  ⟨envelope_shape.1 (fun _ => 0) 0 100 200 (by norm_num) (by decide),
    envelope_shape.2.2.2.1 (fun _ => 0) 0⟩

/-- C6: on every timer tick executed from a reachable ACTIVE state, the DAC
output is `to_int(mul(mul(amplitude, sine_value), output_scale)) + 2048`,
where the sine value is `sin_table[phase_accum >> 24]` after the wrapping
phase increment; the word sent to the DAC is that output truncated to 16
bits by masking (no saturation), OR-ed with the channel-B control bits.
(The code multiplies by `scale_out` before the table value; for the even
amplitudes the envelope produces, the two orders agree —
`multfix15_scale_swap`.) -/
theorem active_tick_output (table : Nat → Int)
    (htab : ∀ i, -(2047 * 32768) ≤ table i ∧ table i ≤ 2047 * 32768)
    (n : Nat) (hact : (dds table n).STATE_L = 0) :
    (tick table (dds table n)).1.dacOut =
      fix2int15 (multfix15 (multfix15 (dds table n).amp
        (table ((((dds table n).phase_accum + phase_incr_main_0) % 2 ^ 32) >>> 24)))
        scale_out) + 2048 ∧
    (tick table (dds table n)).1.dacData =
      DAC_config_chan_B ||| lowBits16 ((tick table (dds table n)).1.dacOut) ∧
    (tick table (dds table n)).2 =
      some ((tick table (dds table n)).1.dacData) := by
  obtain ⟨h0, h1, h2⟩ := dds_amp_props table n
  have hswap := multfix15_scale_swap (dds table n).amp
    (table ((((dds table n).phase_accum + phase_incr_main_0) % 2 ^ 32) >>> 24))
    h0 h1 h2 (htab _).1 (htab _).2
  by_cases hD : (dds table n).count_L + 1 = BEEP_DURATION
  · refine ⟨?_, ?_, ?_⟩ <;> simp only [tick, if_pos hact, if_pos hD]
    rw [← hswap]
  · refine ⟨?_, ?_, ?_⟩ <;> simp only [tick, if_pos hact, if_neg hD]
    rw [← hswap]

/-- Witness for `active_tick_output` at a concrete table and tick. -/
theorem active_tick_output_witness :
    (tick (fun _ => 49152) (dds (fun _ => 49152) 0)).1.dacOut =
      fix2int15 (multfix15 (multfix15 (dds (fun _ => 49152) 0).amp
        ((fun _ => (49152 : Int))
          ((((dds (fun _ => 49152) 0).phase_accum + phase_incr_main_0) % 2 ^ 32) >>> 24)))
        scale_out) + 2048 ∧
    (tick (fun _ => 49152) (dds (fun _ => 49152) 0)).1.dacData =
      DAC_config_chan_B |||
        lowBits16 ((tick (fun _ => 49152) (dds (fun _ => 49152) 0)).1.dacOut) ∧
    (tick (fun _ => 49152) (dds (fun _ => 49152) 0)).2 =
      some ((tick (fun _ => 49152) (dds (fun _ => 49152) 0)).1.dacData) :=
  active_tick_output (fun _ => 49152) (fun i => by norm_num) 0 rfl

/-- C10: a tick taken in the SILENT state whose counter increment does not
reach `BEEP_REPEAT_INTERVAL` only increments the counter: phase accumulator,
amplitude and DAC output variables are untouched and nothing is pushed to
the DAC. -/
theorem silent_tick_frame (table : Nat → Int) (s : DDSState)
    (h1 : s.STATE_L ≠ 0) (h2 : s.count_L + 1 ≠ BEEP_REPEAT_INTERVAL) :
    (tick table s).1 = { s with count_L := s.count_L + 1 } ∧
    (tick table s).2 = none := by
  constructor <;> simp [tick, h1, h2]

/-- Witness for `silent_tick_frame` at a concrete state. -/
theorem silent_tick_frame_witness :
    (tick (fun _ => 0) ⟨77, 1, 5, 10, 3, 4⟩).1 =
      { phase_accum := 77, STATE_L := 1, count_L := 6, amp := 10,
        dacOut := 3, dacData := 4 } ∧
    (tick (fun _ => 0) ⟨77, 1, 5, 10, 3, 4⟩).2 = none :=
  silent_tick_frame (fun _ => 0) ⟨77, 1, 5, 10, 3, 4⟩ (by norm_num) (by decide)

lemma inv_init : Inv ppInit := by
  simp [Inv, ppInit]

lemma inv_step {s t : PingPong} (hi : Inv s) (hstep : Step s t) : Inv t := by
  cases hstep with
  | wait0 h hs =>
    by_cases hp : s.pc1 = 0 <;> by_cases hp2 : 2 ≤ s.pc1 <;>
      simp [Inv, h, hp, hp2] at hi ⊢ <;> omega
  | inc0 h =>
    by_cases hp : s.pc1 = 0 <;> by_cases hp2 : 2 ≤ s.pc1 <;>
      simp [Inv, h, hp, hp2] at hi ⊢ <;> omega
  | report0 h =>
    by_cases hp : s.pc1 = 0 <;> by_cases hp2 : 2 ≤ s.pc1 <;>
      simp [Inv, h, hp, hp2] at hi ⊢ <;> omega
  | sleep0 h =>
    by_cases hp : s.pc1 = 0 <;> by_cases hp2 : 2 ≤ s.pc1 <;>
      simp [Inv, h, hp, hp2] at hi ⊢ <;> omega
  | signal0 h =>
    by_cases hp : s.pc1 = 0 <;> by_cases hp2 : 2 ≤ s.pc1 <;>
      simp [Inv, h, hp, hp2] at hi ⊢ <;> omega
  | wait1 h hs =>
    by_cases hp : s.pc0 = 0 <;> by_cases hp2 : 2 ≤ s.pc0 <;>
      simp [Inv, h, hp, hp2] at hi ⊢ <;> omega
  | inc1 h =>
    by_cases hp : s.pc0 = 0 <;> by_cases hp2 : 2 ≤ s.pc0 <;>
      simp [Inv, h, hp, hp2] at hi ⊢ <;> omega
  | report1 h =>
    by_cases hp : s.pc0 = 0 <;> by_cases hp2 : 2 ≤ s.pc0 <;>
      simp [Inv, h, hp, hp2] at hi ⊢ <;> omega
  | sleep1 h =>
    by_cases hp : s.pc0 = 0 <;> by_cases hp2 : 2 ≤ s.pc0 <;>
      simp [Inv, h, hp, hp2] at hi ⊢ <;> omega
  | signal1 h =>
    by_cases hp : s.pc0 = 0 <;> by_cases hp2 : 2 ≤ s.pc0 <;>
      simp [Inv, h, hp, hp2] at hi ⊢ <;> omega
  | fft =>
    by_cases hp : s.pc0 = 0 <;> by_cases hp2 : 2 ≤ s.pc0 <;>
      by_cases hq : s.pc1 = 0 <;> by_cases hq2 : 2 ≤ s.pc1 <;>
      simp [Inv, hp, hp2, hq, hq2] at hi ⊢ <;> omega

/-- C9: in every reachable state of the two-semaphore ping-pong protocol
(core 0's semaphore initially signalled, core 1's initially unsignalled),
the two heartbeat bodies are never simultaneously active (mutual
exclusion), the two threads' body entries strictly alternate starting with
core 0 (`w1 ≤ w0 ≤ w1 + 1`), every body entry consumed one signal (core 0
has entered at most once more than core 1 has signalled — the extra entry
being the initial token — and core 1 at most as often as core 0 has
signalled), and the shared counter has been incremented exactly once per
completed body: it equals the number of signals performed plus the at most
one body currently past its increment. -/
theorem pingpong_protocol (s : PingPong) (hr : Reachable s) :
    ¬(s.pc0 ≠ 0 ∧ s.pc1 ≠ 0) ∧
    s.w1 ≤ s.w0 ∧ s.w0 ≤ s.w1 + 1 ∧
    s.w0 ≤ s.g1 + 1 ∧ s.w1 ≤ s.g0 ∧
    s.counter = s.g0 + s.g1 + (if 2 ≤ s.pc0 then 1 else 0) +
      (if 2 ≤ s.pc1 then 1 else 0) ∧
    s.g0 + s.g1 ≤ s.counter ∧ s.counter ≤ s.g0 + s.g1 + 1 ∧
    s.counter ≤ s.w0 + s.w1 ∧ s.w0 + s.w1 ≤ s.counter + 1 := by
  have key : Inv s := by
    induction hr with
    | init => exact inv_init
    | step hr hstep ih => exact inv_step ih hstep
  by_cases hp : s.pc0 = 0 <;> by_cases hp2 : 2 ≤ s.pc0 <;>
    by_cases hq : s.pc1 = 0 <;> by_cases hq2 : 2 ≤ s.pc1 <;>
    simp [Inv, hp, hp2, hq, hq2] at key ⊢ <;> omega

/-- Witness for `pingpong_protocol` at the initial state. -/
theorem pingpong_protocol_witness :
    ¬(ppInit.pc0 ≠ 0 ∧ ppInit.pc1 ≠ 0) ∧
    ppInit.w1 ≤ ppInit.w0 ∧ ppInit.w0 ≤ ppInit.w1 + 1 ∧
    ppInit.w0 ≤ ppInit.g1 + 1 ∧ ppInit.w1 ≤ ppInit.g0 ∧
    ppInit.counter = ppInit.g0 + ppInit.g1 + (if 2 ≤ ppInit.pc0 then 1 else 0) +
      (if 2 ≤ ppInit.pc1 then 1 else 0) ∧
    ppInit.g0 + ppInit.g1 ≤ ppInit.counter ∧
    ppInit.counter ≤ ppInit.g0 + ppInit.g1 + 1 ∧
    ppInit.counter ≤ ppInit.w0 + ppInit.w1 ∧
    ppInit.w0 + ppInit.w1 ≤ ppInit.counter + 1 :=
  pingpong_protocol ppInit Reachable.init

end Combo
